import Mathlib

/-
Shallow embedding of the g1 assembler (src/g1asm/assembler.py) and proofs
about it.  The embedding follows the Python source: the rply lexer built in
`lg` (priority-ordered first-match rules over the regexes given there), the
token-stream state machine `assemble_tokens`, the argument resolver
`parse_argument_token`, and the diagnostic rendering of `error`/`warn`.
Machine integers are modelled as `Int`/`Nat`; fatal `error(...)` calls
(which `sys.exit`) become `Except.error`; `warn(...)` calls are collected
in a list of warning events.
-/

set_option autoImplicit false

namespace G1

/-! ## Tokens (rply `Token` with its `SourcePosition`) -/

inductive TokKind where
  | META_VARIABLE
  | NUMBER
  | ADDRESS
  | LABEL_NAME
  | NAME
  | COMMENT
  | NEWLINE
deriving DecidableEq, Repr

/-- A lexer token: rply's `Token` restricted to what the assembler uses:
`name` (the rule name), `value` (the matched text), and the 1-based
`source_pos.lineno` / `source_pos.colno` of the match start. -/
structure Tok where
  name : TokKind
  value : String
  lineno : Nat
  colno : Nat
deriving DecidableEq, Repr

/-! ## Character classes of the lexer regexes

The Python rules are regexes; `[A-z]` is the ASCII code range 65..122,
which contains the letters, the underscore, and also the six characters
between `Z` and `a`. -/

/-- The regex class `[A-z]`: ASCII codes 65 through 122. -/
def isAzClass (c : Char) : Bool :=
  decide (65 ≤ c.toNat ∧ c.toNat ≤ 122)

/-- The regex class `[A-z0-9_]` (`_` has code 95, inside `A-z`). -/
def isLabelClass (c : Char) : Bool :=
  isAzClass c || c.isDigit

/-! ## The rule matchers

Each matcher models one `lg.add(name, regex)` rule applied with Python's
`re.match` at the current position: it returns the matched text and the
remaining characters, or `none` when the regex does not match there. -/

/-- Rule `META_VARIABLE`, regex `#[A-z]+`. -/
def matchMeta : List Char → Option (List Char × List Char)
  | [] => none
  | c :: rest =>
    if c = '#' then
      if (rest.takeWhile isAzClass).isEmpty then none
      else some (c :: rest.takeWhile isAzClass, rest.dropWhile isAzClass)
    else none

/-- Rule `NUMBER`, regex `-?\d+`. -/
def matchNumber : List Char → Option (List Char × List Char)
  | [] => none
  | c :: rest =>
    if c = '-' then
      if (rest.takeWhile Char.isDigit).isEmpty then none
      else some (c :: rest.takeWhile Char.isDigit, rest.dropWhile Char.isDigit)
    else
      if ((c :: rest).takeWhile Char.isDigit).isEmpty then none
      else some ((c :: rest).takeWhile Char.isDigit, (c :: rest).dropWhile Char.isDigit)

/-- Rule `ADDRESS`, regex `\$\d+`. -/
def matchAddress : List Char → Option (List Char × List Char)
  | [] => none
  | c :: rest =>
    if c = '$' then
      if (rest.takeWhile Char.isDigit).isEmpty then none
      else some (c :: rest.takeWhile Char.isDigit, rest.dropWhile Char.isDigit)
    else none

/-- Rule `LABEL_NAME`, regex `[A-z0-9_]+:` (the colon is part of the match;
`:` itself is not in the class, so the greedy run is the maximal run). -/
def matchLabelName (cs : List Char) : Option (List Char × List Char) :=
  if (cs.takeWhile isLabelClass).isEmpty then none
  else
    match cs.dropWhile isLabelClass with
    | c :: rest => if c = ':' then some (cs.takeWhile isLabelClass ++ [':'], rest) else none
    | [] => none

/-- Rule `NAME`, regex `[A-z_][A-z0-9_]*` (`[A-z_]` equals `[A-z]`). -/
def matchName : List Char → Option (List Char × List Char)
  | [] => none
  | c :: rest =>
    if isAzClass c then some (c :: rest.takeWhile isLabelClass, rest.dropWhile isLabelClass)
    else none

/-- Rule `COMMENT`, regex `;.*` (`.` does not match a newline). -/
def matchComment : List Char → Option (List Char × List Char)
  | [] => none
  | c :: rest =>
    if c = ';' then some (c :: rest.takeWhile (· != '\n'), rest.dropWhile (· != '\n'))
    else none

/-- Rule `NEWLINE`, regex `\n`. -/
def matchNewline : List Char → Option (List Char × List Char)
  | [] => none
  | c :: rest => if c = '\n' then some ([c], rest) else none

/-- rply tries the rules in the order they were added and takes the first
one that matches at the current position. -/
def firstMatch (cs : List Char) : Option (TokKind × List Char × List Char) :=
  match matchMeta cs with
  | some (tk, rest) => some (.META_VARIABLE, tk, rest)
  | none =>
  match matchNumber cs with
  | some (tk, rest) => some (.NUMBER, tk, rest)
  | none =>
  match matchAddress cs with
  | some (tk, rest) => some (.ADDRESS, tk, rest)
  | none =>
  match matchLabelName cs with
  | some (tk, rest) => some (.LABEL_NAME, tk, rest)
  | none =>
  match matchName cs with
  | some (tk, rest) => some (.NAME, tk, rest)
  | none =>
  match matchComment cs with
  | some (tk, rest) => some (.COMMENT, tk, rest)
  | none =>
  match matchNewline cs with
  | some (tk, rest) => some (.NEWLINE, tk, rest)
  | none => none

/-- Advance a 1-based (line, column) position over consumed characters,
matching rply's line counting and column-from-last-newline computation. -/
def advancePos (pos : Nat × Nat) (cs : List Char) : Nat × Nat :=
  cs.foldl (fun p c => if c = '\n' then (p.1 + 1, 1) else (p.1, p.2 + 1)) pos

/-- The rply `LexerStream` loop: at each position first apply the ignore
rule (a single space), then the first matching rule; any other character
raises `LexingError` (modelled as `none`).  `fuel` dominates the number of
consumed characters; every step consumes at least one character. -/
def lexLoopF : Nat → List Char → Nat → Nat → Option (List Tok)
  | 0, _, _, _ => none
  | _ + 1, [], _, _ => some []
  | f + 1, ch :: rest, l, c =>
    if ch = ' ' then lexLoopF f rest l (c + 1)
    else
      match firstMatch (ch :: rest) with
      | none => none
      | some (k, tk, rem) =>
        match lexLoopF f rem (advancePos (l, c) tk).1 (advancePos (l, c) tk).2 with
        | none => none
        | some toks => some (⟨k, String.mk tk, l, c⟩ :: toks)

/-- Tokenize a whole source string (`lexer.lex`), positions starting at (1, 1). -/
def lexFull (src : String) : Option (List Tok) :=
  lexLoopF (src.length + 1) src.data 1 1

/-! ## Integer parsing and decimal serialization

`parsePyInt` models Python's `int(...)` applied to the strings the lexer
can produce (an optional `-` sign followed by decimal digits; anything
else raises `ValueError`, modelled as `none`).  `serializeNat` /
`serializeInt` model the decimal rendering shared by Python's `str()` and
`json.dumps` for integers. -/

def digitVal (c : Char) : Nat := c.toNat - 48

def digitsToNat (cs : List Char) : Nat :=
  cs.foldl (fun a c => a * 10 + digitVal c) 0

/-- Python `int(s)` on the token texts that can reach it. -/
def parsePyInt (s : String) : Option Int :=
  match s.data with
  | [] => none
  | c :: rest =>
    if c = '-' then
      if rest ≠ [] ∧ rest.all Char.isDigit then some (-(digitsToNat rest : Int)) else none
    else
      if (c :: rest).all Char.isDigit then some ((digitsToNat (c :: rest) : Int)) else none

def digitChar (n : Nat) : Char :=
  match n with
  | 0 => '0' | 1 => '1' | 2 => '2' | 3 => '3' | 4 => '4'
  | 5 => '5' | 6 => '6' | 7 => '7' | 8 => '8' | _ => '9'

/-- Decimal digits, least significant first, with structural fuel (any
fuel above the number itself is enough, since dividing by ten strictly
shrinks it). -/
def natDigitsRevF : Nat → Nat → List Char
  | 0, _ => []
  | f + 1, n =>
    if n < 10 then [digitChar n]
    else digitChar (n % 10) :: natDigitsRevF f (n / 10)

/-- Decimal digits of `n`, least significant first. -/
def natDigitsRev (n : Nat) : List Char :=
  natDigitsRevF (n + 1) n

/-- Decimal rendering of a natural number (Python `str` on a nonnegative int). -/
def serializeNat (n : Nat) : String :=
  String.mk (natDigitsRev n).reverse

/-- Decimal rendering of an integer (Python `str` / `json.dumps` on an int). -/
def serializeInt (v : Int) : String :=
  if v < 0 then "-" ++ serializeNat (-v).toNat else serializeNat v.toNat

/-! ## Assembler data model -/

/-- `INT_RANGE_LOWER = -2**31`. -/
def INT_RANGE_LOWER : Int := -2147483648

/-- `INT_RANGE_UPPER = 2**31-1`. -/
def INT_RANGE_UPPER : Int := 2147483647

/-- The `META_VARIABLES` defaults: memory=128, width=100, height=100, tickrate=60. -/
structure Meta where
  memory : Int
  width : Int
  height : Int
  tickrate : Int
deriving DecidableEq, Repr

def initMeta : Meta := ⟨128, 100, 100, 60⟩

/-- Membership of a name in the `META_VARIABLES` dict. -/
def isMetaName (k : String) : Bool :=
  k = "memory" || k = "width" || k = "height" || k = "tickrate"

/-- Assignment `output_json['meta'][k] = v` for a recognized meta key. -/
def setMeta (m : Meta) (k : String) (v : Int) : Meta :=
  if k = "memory" then { m with memory := v }
  else if k = "width" then { m with width := v }
  else if k = "height" then { m with height := v }
  else if k = "tickrate" then { m with tickrate := v }
  else m

/-- A resolved argument: `parse_argument_token` returns `str | int`. -/
inductive Arg where
  | int (v : Int)
  | str (s : String)
deriving DecidableEq, Repr

/-- Non-fatal diagnostics issued through `warn`. -/
inductive WarnEvent where
  | duplicateLabel (t : Tok)
  | reservedAssign (t : Tok)
deriving DecidableEq, Repr

/-- Fatal outcomes: each `error(...)` call site (which exits), plus the
uncaught Python exceptions the code can raise (`StopIteration` from
`tokens.next()`, `ValueError` from `int()`, `IndexError` from
`instruction_args[0]`), plus `LexingError` and fuel exhaustion of the
embedding (never reached with the fuel supplied by `assemble_tokens`). -/
inductive AsmError where
  | fuel
  | lexingError
  | stopIteration
  | metaOutsideHeader (t : Tok)
  | unrecognizedMeta (t : Tok)
  | valueError (t : Tok)
  | unrecognizedInstruction (t : Tok)
  | arityMismatch (t : Tok) (expected actual : Nat)
  | valueOutsideInstruction (t : Tok)
  | rangeError (t : Tok)
  | undefinedLabel (t : Tok)
  | indexError (t : Tok)
deriving DecidableEq, Repr

/-- Python dict lookup on an insertion-ordered association list (keys are
unique because the assembler only inserts absent keys). -/
def dictLookup {α : Type} (k : String) : List (String × α) → Option α
  | [] => none
  | (k', v) :: rest => if k' = k then some v else dictLookup k rest

/-- `AssemblerState`. -/
inductive AsmSt where
  | META
  | PROCEDURES
deriving DecidableEq, Repr

/-- The mutable locals of `assemble_tokens` during the token scan:
`compiler_state`, `output_json['meta']`, `labels`, `raw_instructions`,
`instruction_index`, plus the warnings printed so far. -/
structure St where
  cstate : AsmSt
  meta : Meta
  labels : List (String × Nat)
  rawInstrs : List (Tok × List Tok)
  idx : Nat
  warns : List WarnEvent
deriving DecidableEq, Repr

def initSt : St := ⟨.META, initMeta, [], [], 0, []⟩

/-- `get_until_newline`: pull tokens until a NEWLINE, skipping COMMENT
tokens; `none` models `StopIteration` when the stream runs out. -/
def getUntilNewline : List Tok → Option (List Tok × List Tok)
  | [] => none
  | t :: rest =>
    if t.name = TokKind.COMMENT then getUntilNewline rest
    else if t.name = TokKind.NEWLINE then some ([], rest)
    else
      match getUntilNewline rest with
      | some (args, rest') => some (t :: args, rest')
      | none => none

/-- The token-scan loop of `assemble_tokens` (its `for token in tokens`
body), parameterized by the instruction catalog `cat` (the external
`INSTRUCTIONS` / `ARGUMENT_COUNT_LOOKUP` table) and driven by fuel; every
recursive call consumes at least one token, so `tokens.length + 1` fuel
always suffices. -/
def asmLoopF (cat : List (String × Nat)) : Nat → List Tok → St → Except AsmError St
  | 0, _, _ => .error .fuel
  | _ + 1, [], st => .ok st
  | f + 1, t :: ts, st =>
    match t.name with
    | .META_VARIABLE =>
      if st.cstate ≠ AsmSt.META then .error (.metaOutsideHeader t)
      else if isMetaName (t.value.drop 1) then
        match ts with
        | [] => .error .stopIteration
        | vtok :: ts' =>
          match parsePyInt vtok.value with
          | none => .error (.valueError vtok)
          | some v => asmLoopF cat f ts' { st with meta := setMeta st.meta (t.value.drop 1) v }
      else .error (.unrecognizedMeta t)
    | .LABEL_NAME =>
      if (dictLookup (t.value.dropRight 1) st.labels).isSome then
        asmLoopF cat f ts
          { st with cstate := .PROCEDURES, warns := st.warns ++ [.duplicateLabel t] }
      else
        asmLoopF cat f ts
          { st with cstate := .PROCEDURES,
                    labels := st.labels ++ [(t.value.dropRight 1, st.idx)] }
    | .NAME =>
      match dictLookup t.value cat with
      | none => .error (.unrecognizedInstruction t)
      | some arity =>
        match getUntilNewline ts with
        | none => .error .stopIteration
        | some (args, rest) =>
          if args.length ≠ arity then .error (.arityMismatch t arity args.length)
          else asmLoopF cat f rest
            { st with rawInstrs := st.rawInstrs ++ [(t, args)], idx := st.idx + 1 }
    | .NUMBER => .error (.valueOutsideInstruction t)
    | .ADDRESS => .error (.valueOutsideInstruction t)
    | .COMMENT => asmLoopF cat f ts st
    | .NEWLINE => asmLoopF cat f ts st

/-- `parse_argument_token`. -/
def parse_argument_token (t : Tok) (labels : List (String × Nat)) : Except AsmError Arg :=
  match t.name with
  | .NUMBER =>
    match parsePyInt t.value with
    | none => .error (.valueError t)
    | some parsed =>
      if parsed < INT_RANGE_LOWER ∨ parsed > INT_RANGE_UPPER then .error (.rangeError t)
      else .ok (.int parsed)
  | .NAME =>
    match dictLookup t.value labels with
    | none => .error (.undefinedLabel t)
    | some i => .ok (.int i)
  | .ADDRESS =>
    match parsePyInt (t.value.drop 1) with
    | none => .error (.valueError t)
    | some parsedAddress =>
      if parsedAddress < INT_RANGE_LOWER ∨ parsedAddress > INT_RANGE_UPPER then
        .error (.rangeError t)
      else .ok (.str t.value)
  | _ => .ok (.str t.value)

/-- Whether a resolved first argument is an `int` that is `≤ 11`
(`isinstance(first_argument, int) and first_argument <= 11`). -/
def isReservedInt (a : Arg) : Bool :=
  match a with
  | .int v => v ≤ 11
  | .str _ => false

/-- The body of the resolution loop for one raw instruction record:
resolve every argument token, then read `instruction_args[0]` (an
`IndexError` when the instruction has no arguments) for the
reserved-memory warning check. -/
def resolveInstr (labels : List (String × Nat)) (asg : List String)
    (nameTok : Tok) (argToks : List Tok) :
    Except AsmError ((String × List Arg) × List WarnEvent) := do
  let args ← argToks.mapM (fun t => parse_argument_token t labels)
  match argToks, args with
  | t0 :: _, a0 :: rest =>
    let w : List WarnEvent :=
      if asg.contains nameTok.value && isReservedInt a0 then [.reservedAssign t0] else []
    .ok ((nameTok.value, a0 :: rest), w)
  | _, _ => .error (.indexError nameTok)

/-- The `# Parse instruction args` loop over `raw_instructions`. -/
def resolveAll (labels : List (String × Nat)) (asg : List String) :
    List (Tok × List Tok) → Except AsmError (List (String × List Arg) × List WarnEvent)
  | [] => .ok ([], [])
  | (nt, ats) :: rest => do
    let (ins, w) ← resolveInstr labels asg nt ats
    let (inss, ws) ← resolveAll labels asg rest
    .ok (ins :: inss, w ++ ws)

/-- The output `Program` (`output_json` without `include_source`):
`meta`, the resolved instruction list, and the optional `tick` / `start`
entry points copied from the label table. -/
structure Program where
  meta : Meta
  instructions : List (String × List Arg)
  tick : Option Nat
  start : Option Nat
deriving DecidableEq, Repr

/-- The tail of `assemble_tokens` after the scan: resolve all raw
instructions and build `output_json`. -/
def phase2 (asg : List String) (st : St) : Except AsmError (Program × List WarnEvent) := do
  let (instrs, ws) ← resolveAll st.labels asg st.rawInstrs
  .ok ({ meta := st.meta, instructions := instrs,
         tick := dictLookup ("tick") st.labels,
         start := dictLookup ("start") st.labels }, st.warns ++ ws)

/-- `assemble_tokens` with `include_source=False`: scan, then resolve. -/
def assemble_tokens (cat : List (String × Nat)) (asg : List String) (toks : List Tok) :
    Except AsmError (Program × List WarnEvent) := do
  let st ← asmLoopF cat (toks.length + 1) toks initSt
  phase2 asg st

/-- The `assemble` entry point up to the in-memory program: lex
`source_code + '\n'` and run `assemble_tokens` from the `META` state. -/
def assembleSource (cat : List (String × Nat)) (asg : List String) (src : String) :
    Except AsmError (Program × List WarnEvent) :=
  match lexFull (src ++ "\n") with
  | none => .error .lexingError
  | some toks => assemble_tokens cat asg toks

/-- The scan half of `assembleSource`, exposing the label table and raw
instruction list the source builds. -/
def phase1Source (cat : List (String × Nat)) (src : String) : Except AsmError St :=
  match lexFull (src ++ "\n") with
  | none => .error .lexingError
  | some toks => asmLoopF cat (toks.length + 1) toks initSt

/-! ## Diagnostics rendering (`error` / `warn`)

Both print `f'{line_number+1} | {source_lines[line_number]}'` followed by
`' ' * (len(str(line_number)) + 3 + column_number)` and a caret, where
`line_number = token.source_pos.lineno - 1` and
`column_number = token.source_pos.colno - 1`. -/

/-- Number of spaces the code puts before the caret. -/
def caretPadding (t : Tok) : Nat :=
  (serializeNat (t.lineno - 1)).length + 3 + (t.colno - 1)

/-- The line-number header actually printed before the source line:
`str(line_number+1)` followed by `' | '`. -/
def renderedHeader (t : Tok) : String :=
  serializeNat ((t.lineno - 1) + 1) ++ " | "

/-! ## The instruction catalog

`INSTRUCTIONS` / `ARGUMENT_COUNT_LOOKUP` / `ASSIGNMENT_INSTRUCTIONS` live
in `g1asm/instructions.py`, which is not part of the sources here; the
claims' concrete programs only use `add` and `halt`. -/

/-- Modelled from the spec: the instruction catalog (`g1asm.instructions`,
not under src/) restricted to the two mnemonics the spec's end-to-end
example uses: its line `add $1 2 3` supplies three arguments and its line
`halt` supplies none, and the spec says the program assembles, so the
catalog maps `add` to arity 3 and `halt` to arity 0. -/
def g1Catalog : List (String × Nat) := [("add", 3), ("halt", 0)]

/-- Modelled from the spec: the assignment-instruction subset
(`ASSIGNMENT_INSTRUCTIONS`, not under src/); per the glossary an
assignment instruction's first argument denotes a memory-write target, as
`add`'s does. -/
def g1Assign : List String := ["add"]

/-- The spec's end-to-end example source. -/
def c1src : String := "#memory 256\nstart:\n add $1 2 3\ntick:\n halt\n"

/-- The lexeme shape the spec claims for LABEL_NAME: an identifier made of
letters, digits, and underscores that does not start with a digit,
immediately followed by a colon. -/
def claimedLabelLexeme (s : String) : Bool :=
  (s.data.getLast? == some ':') && !s.data.dropLast.isEmpty &&
  s.data.dropLast.all (fun ch => ch.isAlpha || ch.isDigit || ch == '_') &&
  (match s.data.dropLast with
   | d :: _ => !d.isDigit
   | [] => false)

/-- A program with both a forward and a backward reference to `foo`. -/
def c4toks : List Tok := (lexFull ("add foo 0 0\nfoo:\nadd foo 0 0" ++ "\n")).getD []

def c4st : St := ((asmLoopF [("add", 3)] (c4toks.length + 1) c4toks initSt).toOption).getD initSt

def c4res : Program × List WarnEvent :=
  ((phase2 [] c4st).toOption).getD (⟨initMeta, [], none, none⟩, [])

/-- A program whose trailing label sits one past the last instruction. -/
def c10toks : List Tok := (lexFull ("add 1 2 3\nfoo:" ++ "\n")).getD []

def c10st : St := ((asmLoopF [("add", 3)] (c10toks.length + 1) c10toks initSt).toOption).getD initSt

def c10res : Program × List WarnEvent :=
  ((phase2 [] c10st).toOption).getD (⟨initMeta, [], none, none⟩, [])

/-! ## Helper lemmas -/

theorem except_bind_ok {ε α β : Type} (x : Except ε α) (g : α → Except ε β) (b : β) :
    (x >>= g) = .ok b ↔ ∃ a, x = .ok a ∧ g a = .ok b := by
  cases x <;> simp [Bind.bind, Except.bind]

theorem dictLookup_append_of_some {α : Type} {k : String} {l l' : List (String × α)} {v : α}
    (h : dictLookup k l = some v) : dictLookup k (l ++ l') = some v := by
  induction l with
  | nil => simp [dictLookup] at h
  | cons p rest ih =>
    obtain ⟨k', v'⟩ := p
    simp only [List.cons_append, dictLookup] at h ⊢
    by_cases hk : k' = k
    · simpa [hk] using h
    · simp only [if_neg hk] at h ⊢
      exact ih h

theorem dictLookup_append_self {α : Type} {k : String} {l : List (String × α)} {v : α}
    (h : dictLookup k l = none) : dictLookup k (l ++ [(k, v)]) = some v := by
  induction l with
  | nil => simp [dictLookup]
  | cons p rest ih =>
    obtain ⟨k', v'⟩ := p
    simp only [List.cons_append, dictLookup] at h ⊢
    by_cases hk : k' = k
    · simp [hk] at h
    · simp only [if_neg hk] at h ⊢
      exact ih h

theorem dictLookup_mem {α : Type} {k : String} {l : List (String × α)} {v : α}
    (h : dictLookup k l = some v) : (k, v) ∈ l := by
  induction l with
  | nil => simp [dictLookup] at h
  | cons p rest ih =>
    obtain ⟨k', v'⟩ := p
    simp only [dictLookup] at h
    by_cases hk : k' = k
    · simp only [if_pos hk] at h
      injection h with h
      subst hk; subst h
      exact List.mem_cons_self _ _
    · simp only [if_neg hk] at h
      exact List.mem_cons_of_mem _ (ih h)

/-- On success, the token-scan loop never removes or overwrites a label
binding: a key that resolves to `v` before keeps resolving to `v` after. -/
theorem asmLoopF_labels_mono (cat : List (String × Nat)) :
    ∀ (f : Nat) (ts : List Tok) (st st' : St) (k : String) (v : Nat),
      asmLoopF cat f ts st = .ok st' →
      dictLookup k st.labels = some v →
      dictLookup k st'.labels = some v := by
  intro f
  induction f with
  | zero =>
    intro ts st st' k v hrun _
    simp [asmLoopF] at hrun
  | succ f ih =>
    intro ts st st' k v hrun hk
    match ts with
    | [] =>
      simp only [asmLoopF, Except.ok.injEq] at hrun
      exact hrun ▸ hk
    | t :: ts =>
      simp only [asmLoopF] at hrun
      cases hname : t.name <;> simp only [hname] at hrun
      case META_VARIABLE =>
        split at hrun
        · exact absurd hrun (by simp)
        · split at hrun
          · split at hrun
            · exact absurd hrun (by simp)
            · split at hrun
              · exact absurd hrun (by simp)
              · exact ih _ _ _ _ _ hrun (by simpa using hk)
          · exact absurd hrun (by simp)
      case LABEL_NAME =>
        split at hrun
        · exact ih _ _ _ _ _ hrun (by simpa using hk)
        · refine ih _ _ _ _ _ hrun ?_
          simpa using dictLookup_append_of_some hk
      case NAME =>
        split at hrun
        · exact absurd hrun (by simp)
        · split at hrun
          · exact absurd hrun (by simp)
          · split at hrun
            · exact absurd hrun (by simp)
            · exact ih _ _ _ _ _ hrun (by simpa using hk)
      case NUMBER => exact absurd hrun (by simp)
      case ADDRESS => exact absurd hrun (by simp)
      case COMMENT => exact ih _ _ _ _ _ hrun hk
      case NEWLINE => exact ih _ _ _ _ _ hrun hk

/-- Invariant of the scan loop: `instruction_index` always equals the
number of collected raw instruction records, and every label table value
is bounded by it. -/
theorem asmLoopF_inv (cat : List (String × Nat)) :
    ∀ (f : Nat) (ts : List Tok) (st st' : St),
      asmLoopF cat f ts st = .ok st' →
      st.idx = st.rawInstrs.length →
      (∀ p ∈ st.labels, p.2 ≤ st.idx) →
      st'.idx = st'.rawInstrs.length ∧ ∀ p ∈ st'.labels, p.2 ≤ st'.idx := by
  intro f
  induction f with
  | zero =>
    intro ts st st' hrun _ _
    simp [asmLoopF] at hrun
  | succ f ih =>
    intro ts st st' hrun hidx hbound
    match ts with
    | [] =>
      simp only [asmLoopF, Except.ok.injEq] at hrun
      exact hrun ▸ ⟨hidx, hbound⟩
    | t :: ts =>
      simp only [asmLoopF] at hrun
      cases hname : t.name <;> simp only [hname] at hrun
      case META_VARIABLE =>
        split at hrun
        · exact absurd hrun (by simp)
        · split at hrun
          · split at hrun
            · exact absurd hrun (by simp)
            · split at hrun
              · exact absurd hrun (by simp)
              · exact ih _ _ _ hrun (by simpa using hidx) (by simpa using hbound)
          · exact absurd hrun (by simp)
      case LABEL_NAME =>
        split at hrun
        · exact ih _ _ _ hrun (by simpa using hidx) (by simpa using hbound)
        · refine ih _ _ _ hrun (by simpa using hidx) ?_
          intro p hp
          simp only [List.mem_append, List.mem_singleton] at hp
          rcases hp with hp | hp
          · exact hbound p hp
          · simp [hp]
      case NAME =>
        split at hrun
        · exact absurd hrun (by simp)
        · split at hrun
          · exact absurd hrun (by simp)
          · split at hrun
            · exact absurd hrun (by simp)
            · refine ih _ _ _ hrun ?_ ?_
              · simp [hidx]
              · intro p hp
                exact Nat.le_succ_of_le (hbound p (by simpa using hp))
      case NUMBER => exact absurd hrun (by simp)
      case ADDRESS => exact absurd hrun (by simp)
      case COMMENT => exact ih _ _ _ hrun hidx hbound
      case NEWLINE => exact ih _ _ _ hrun hidx hbound

theorem mapM_ok_forall₂ {ε α β : Type} (f : α → Except ε β) :
    ∀ (l : List α) (l' : List β), l.mapM f = .ok l' →
      List.Forall₂ (fun a b => f a = .ok b) l l' := by
  intro l
  induction l with
  | nil =>
    intro l' h
    simp only [List.mapM_nil] at h
    simp only [pure, Except.pure, Except.ok.injEq] at h
    rw [← h]
    exact .nil
  | cons a l ih =>
    intro l' h
    rw [List.mapM_cons] at h
    rw [except_bind_ok] at h
    obtain ⟨b, hb, h⟩ := h
    rw [except_bind_ok] at h
    obtain ⟨bs, hbs, h⟩ := h
    simp only [pure, Except.pure, Except.ok.injEq] at h
    rw [← h]
    exact .cons hb (ih _ hbs)

theorem forall₂_getElem? {α β : Type} {R : α → β → Prop} :
    ∀ {l₁ : List α} {l₂ : List β}, List.Forall₂ R l₁ l₂ →
      ∀ (i : Nat) (x : α), l₁[i]? = some x → ∃ y, l₂[i]? = some y ∧ R x y := by
  intro l₁ l₂ h
  induction h with
  | nil =>
    intro i x hx
    simp at hx
  | @cons a b l₁' l₂' hr _ ih =>
    intro i x hx
    cases i with
    | zero =>
      simp only [List.getElem?_cons_zero, Option.some.injEq] at hx
      exact ⟨b, by simp, hx ▸ hr⟩
    | succ n =>
      simp only [List.getElem?_cons_succ] at hx ⊢
      exact ih n x hx

/-- Inversion for one resolution step: a successful `resolveInstr` keeps
the mnemonic and resolves the argument tokens with `parse_argument_token`. -/
theorem resolveInstr_ok {labels : List (String × Nat)} {asg : List String}
    {nt : Tok} {ats : List Tok} {m : String} {args : List Arg} {w : List WarnEvent}
    (h : resolveInstr labels asg nt ats = .ok ((m, args), w)) :
    m = nt.value ∧ ats.mapM (fun t => parse_argument_token t labels) = .ok args := by
  unfold resolveInstr at h
  rw [except_bind_ok] at h
  obtain ⟨args', hargs, h⟩ := h
  split at h
  · simp only [Except.ok.injEq, Prod.mk.injEq] at h
    obtain ⟨⟨hm, hargs2⟩, -⟩ := h
    refine ⟨hm.symm, ?_⟩
    rw [hargs, hargs2]
  · simp at h

/-- A successful resolution phase relates raw records to resolved
instructions pointwise. -/
theorem resolveAll_forall₂ (labels : List (String × Nat)) (asg : List String) :
    ∀ (raws : List (Tok × List Tok)) (instrs : List (String × List Arg)) (ws : List WarnEvent),
      resolveAll labels asg raws = .ok (instrs, ws) →
      List.Forall₂ (fun raw ins => ∃ w, resolveInstr labels asg raw.1 raw.2 = .ok (ins, w))
        raws instrs := by
  intro raws
  induction raws with
  | nil =>
    intro instrs ws h
    simp only [resolveAll, Except.ok.injEq, Prod.mk.injEq] at h
    rw [← h.1]
    exact .nil
  | cons r rest ih =>
    intro instrs ws h
    obtain ⟨nt, ats⟩ := r
    simp only [resolveAll] at h
    rw [except_bind_ok] at h
    obtain ⟨⟨ins, w⟩, h1, h2⟩ := h
    rw [except_bind_ok] at h2
    obtain ⟨⟨inss, ws'⟩, h3, h4⟩ := h2
    simp only [Except.ok.injEq, Prod.mk.injEq] at h4
    rw [← h4.1]
    exact .cons ⟨w, h1⟩ (ih _ _ h3)

theorem resolveAll_length {labels : List (String × Nat)} {asg : List String}
    {raws : List (Tok × List Tok)} {instrs : List (String × List Arg)} {ws : List WarnEvent}
    (h : resolveAll labels asg raws = .ok (instrs, ws)) : instrs.length = raws.length :=
  (resolveAll_forall₂ labels asg raws instrs ws h).length_eq.symm

/-- Inversion for `phase2`. -/
theorem phase2_ok {asg : List String} {st : St} {prog : Program} {ws : List WarnEvent}
    (h : phase2 asg st = .ok (prog, ws)) :
    ∃ ws', resolveAll st.labels asg st.rawInstrs = .ok (prog.instructions, ws') ∧
      prog.meta = st.meta ∧
      prog.tick = dictLookup ("tick") st.labels ∧
      prog.start = dictLookup ("start") st.labels := by
  unfold phase2 at h
  rw [except_bind_ok] at h
  obtain ⟨⟨instrs, ws'⟩, h1, h2⟩ := h
  simp only [Except.ok.injEq, Prod.mk.injEq] at h2
  obtain ⟨h2, -⟩ := h2
  rw [← h2]
  exact ⟨ws', h1, rfl, rfl, rfl⟩

/-! ## Decimal round trip -/

theorem data_mk (l : List Char) : (String.mk l).data = l := rfl

theorem digitChar_isDigit (n : Nat) : (digitChar n).isDigit = true := by
  unfold digitChar
  split <;> decide

theorem digitVal_digitChar {n : Nat} (h : n < 10) : digitVal (digitChar n) = n := by
  interval_cases n <;> decide

theorem digitsToNat_append (cs : List Char) (c : Char) :
    digitsToNat (cs ++ [c]) = digitsToNat cs * 10 + digitVal c := by
  simp [digitsToNat, List.foldl_append]

theorem natDigitsRevF_digits :
    ∀ (f n : Nat), n < f → ∀ c ∈ natDigitsRevF f n, c.isDigit = true := by
  intro f
  induction f with
  | zero => intro n hn; omega
  | succ f ih =>
    intro n hn
    rw [natDigitsRevF]
    split
    · intro c hc
      simp only [List.mem_singleton] at hc
      subst hc
      exact digitChar_isDigit _
    · intro c hc
      simp only [List.mem_cons] at hc
      rcases hc with hc | hc
      · subst hc
        exact digitChar_isDigit _
      · exact ih (n / 10) (by omega) c hc

theorem natDigitsRev_digits (n : Nat) : ∀ c ∈ natDigitsRev n, c.isDigit = true :=
  natDigitsRevF_digits (n + 1) n (Nat.lt_succ_self n)

theorem natDigitsRev_ne_nil (n : Nat) : natDigitsRev n ≠ [] := by
  rw [natDigitsRev, natDigitsRevF]
  split <;> simp

theorem digitsToNat_natDigitsRevF :
    ∀ (f n : Nat), n < f → digitsToNat (natDigitsRevF f n).reverse = n := by
  intro f
  induction f with
  | zero => intro n hn; omega
  | succ f ih =>
    intro n hn
    rw [natDigitsRevF]
    split
    · rename_i h
      simp [digitsToNat, digitVal_digitChar h]
    · rename_i h
      rw [List.reverse_cons, digitsToNat_append]
      rw [ih (n / 10) (by omega)]
      rw [digitVal_digitChar (Nat.mod_lt _ (by omega))]
      omega

theorem digitsToNat_natDigitsRev (n : Nat) : digitsToNat (natDigitsRev n).reverse = n :=
  digitsToNat_natDigitsRevF (n + 1) n (Nat.lt_succ_self n)

theorem parsePyInt_digits (cs : List Char) (hne : cs ≠ [])
    (hd : ∀ c ∈ cs, c.isDigit = true) :
    parsePyInt (String.mk cs) = some ((digitsToNat cs : Nat) : Int) := by
  match cs, hne with
  | c :: rest, _ =>
    have hc : c.isDigit = true := hd c (by simp)
    have hcm : ¬ c = '-' := by
      intro h
      rw [h] at hc
      exact absurd hc (by decide)
    unfold parsePyInt
    simp only [data_mk]
    rw [if_neg hcm, if_pos]
    exact List.all_eq_true.mpr hd

theorem parsePyInt_serializeNat (n : Nat) : parsePyInt (serializeNat n) = some ((n : Nat) : Int) := by
  unfold serializeNat
  rw [parsePyInt_digits _ (by simpa using natDigitsRev_ne_nil n)
      (by intro c hc; exact natDigitsRev_digits n c (List.mem_reverse.mp hc))]
  rw [digitsToNat_natDigitsRev]

theorem parsePyInt_serializeInt (v : Int) : parsePyInt (serializeInt v) = some v := by
  unfold serializeInt
  split
  · rename_i h
    unfold parsePyInt
    rw [String.data_append]
    have hdash : ("-" : String).data = ['-'] := rfl
    rw [hdash]
    have hsdata : (serializeNat (-v).toNat).data = (natDigitsRev (-v).toNat).reverse := rfl
    simp only [List.singleton_append, hsdata]
    rw [if_pos trivial, if_pos, digitsToNat_natDigitsRev]
    · congr 1
      omega
    · constructor
      · simpa using natDigitsRev_ne_nil (-v).toNat
      · refine List.all_eq_true.mpr ?_
        intro c hc
        exact natDigitsRev_digits _ c (List.mem_reverse.mp hc)
  · rename_i h
    rw [parsePyInt_serializeNat]
    congr 1
    omega

/-! ## Claim theorems -/

/-- C1: on the spec's end-to-end example the scan phase does produce
meta.memory=256, start=0, tick=1 and two raw instructions, but the
resolution phase reads `instruction_args[0]` for the zero-argument `halt`
and crashes with an `IndexError`, so assembly does not succeed as
claimed. -/
theorem claim_C1 :
    (∃ st, phase1Source g1Catalog c1src = .ok st ∧
       st.meta.memory = 256 ∧
       dictLookup ("start") st.labels = some 0 ∧
       dictLookup ("tick") st.labels = some 1 ∧
       st.rawInstrs.length = 2) ∧
    assembleSource g1Catalog g1Assign c1src =
      .error (.indexError ⟨.NAME, "halt", 5, 2⟩) := by
  exact ⟨⟨_, rfl, rfl, rfl, rfl, rfl⟩, rfl⟩

/-- C9: the caret padding uses `len(str(line_number))` for the 0-based
line number while the printed header shows the 1-based number, so the
claimed alignment holds on line 9 but fails on line 10, where the header
`10 | ` is five characters wide and the code pads only four. -/
theorem claim_C9 :
    caretPadding ⟨.NAME, "x", 9, 1⟩
        = (renderedHeader ⟨.NAME, "x", 9, 1⟩).length + (1 - 1) ∧
    caretPadding ⟨.NAME, "x", 10, 1⟩
        ≠ (renderedHeader ⟨.NAME, "x", 10, 1⟩).length + (1 - 1) := by
  constructor
  · rfl
  · decide

/-- C8 counterexample: the regex class `[A-z]` also contains the ASCII
characters between `Z` and `a`, so the input `^:` is tokenized as a
LABEL_NAME although `^` is neither a letter, a digit, nor an underscore. -/
theorem claim_C8_counterexample :
    lexFull ("^:") = some [⟨.LABEL_NAME, "^:", 1, 1⟩] ∧
    claimedLabelLexeme ("^:") = false := by
  exact ⟨rfl, rfl⟩

/-- C6: an ADDRESS token whose digits are within the 32-bit signed range
resolves to its original token text (with the leading dollar sign), a
string value distinct from every integer-encoded argument. -/
theorem claim_C6 (t : Tok) (labels : List (String × Nat)) (v : Int)
    (hname : t.name = TokKind.ADDRESS)
    (hv : parsePyInt (t.value.drop 1) = some v)
    (hlo : INT_RANGE_LOWER ≤ v) (hhi : v ≤ INT_RANGE_UPPER) :
    parse_argument_token t labels = .ok (.str t.value) ∧
    ∀ w : Int, Arg.str t.value ≠ Arg.int w := by
  constructor
  · simp only [parse_argument_token, hname, hv]
    rw [if_neg (by omega)]
  · intro w
    simp

theorem claim_C6_witness :
    parse_argument_token ⟨.ADDRESS, "$5", 3, 6⟩ [] = .ok (.str ("$5")) ∧
    ∀ w : Int, Arg.str ("$5") ≠ Arg.int w :=
  claim_C6 ⟨.ADDRESS, "$5", 3, 6⟩ [] 5 rfl rfl (by decide) (by decide)

/-- C5: a NUMBER token parsing outside the 32-bit signed range resolves
to the fatal range error; inside the range it resolves to exactly its
parsed integer, and serializing then re-parsing the value yields it back
unchanged; an ADDRESS token is validated against the same range. -/
theorem claim_C5 :
    (∀ (t : Tok) (labels : List (String × Nat)) (v : Int),
       t.name = TokKind.NUMBER → parsePyInt t.value = some v →
       ((v < INT_RANGE_LOWER ∨ v > INT_RANGE_UPPER) →
          parse_argument_token t labels = .error (.rangeError t)) ∧
       (INT_RANGE_LOWER ≤ v → v ≤ INT_RANGE_UPPER →
          parse_argument_token t labels = .ok (.int v) ∧
          parsePyInt (serializeInt v) = some v)) ∧
    (∀ (t : Tok) (labels : List (String × Nat)) (v : Int),
       t.name = TokKind.ADDRESS → parsePyInt (t.value.drop 1) = some v →
       (v < INT_RANGE_LOWER ∨ v > INT_RANGE_UPPER) →
       parse_argument_token t labels = .error (.rangeError t)) := by
  constructor
  · intro t labels v hname hv
    constructor
    · intro hrange
      simp only [parse_argument_token, hname, hv]
      rw [if_pos hrange]
    · intro hlo hhi
      refine ⟨?_, parsePyInt_serializeInt v⟩
      simp only [parse_argument_token, hname, hv]
      rw [if_neg (by omega)]
  · intro t labels v hname hv hrange
    simp only [parse_argument_token, hname, hv]
    rw [if_pos hrange]

theorem claim_C5_witness :
    parse_argument_token ⟨.NUMBER, "2147483648", 1, 1⟩ [] =
        .error (.rangeError ⟨.NUMBER, "2147483648", 1, 1⟩) ∧
    (parse_argument_token ⟨.NUMBER, "-7", 1, 1⟩ [] = .ok (.int (-7)) ∧
        parsePyInt (serializeInt (-7)) = some (-7)) ∧
    parse_argument_token ⟨.ADDRESS, "$2147483648", 1, 1⟩ [] =
        .error (.rangeError ⟨.ADDRESS, "$2147483648", 1, 1⟩) := by
  refine ⟨?_, ?_, ?_⟩
  · exact (claim_C5.1 _ [] 2147483648 rfl (by decide)).1 (by decide)
  · exact (claim_C5.1 _ [] (-7) rfl (by decide)).2 (by decide) (by decide)
  · exact claim_C5.2 _ [] 2147483648 rfl (by decide) (by decide)

/-- C7: an instruction line whose collected argument tokens (COMMENT
tokens are skipped by `get_until_newline` and never counted) number
anything other than the catalog arity is a fatal arity error carrying
both the expected and the actual counts, for every mnemonic of every
catalog. -/
theorem claim_C7 :
    (∀ (cat : List (String × Nat)) (f : Nat) (t : Tok) (ts : List Tok)
       (st : St) (args rest : List Tok) (n : Nat),
       t.name = TokKind.NAME →
       dictLookup t.value cat = some n →
       getUntilNewline ts = some (args, rest) →
       args.length ≠ n →
       asmLoopF cat (f + 1) (t :: ts) st = .error (.arityMismatch t n args.length)) ∧
    (∀ (c : Tok) (ts : List Tok), c.name = TokKind.COMMENT →
       getUntilNewline (c :: ts) = getUntilNewline ts) := by
  constructor
  · intro cat f t ts st args rest n hname hcat hargs hne
    simp only [asmLoopF, hname, hcat, hargs]
    rw [if_pos hne]
  · intro c ts hc
    simp [getUntilNewline, hc]

theorem claim_C7_witness :
    asmLoopF [("add", 3)] 5
        [⟨.NAME, "add", 1, 1⟩, ⟨.NUMBER, "1", 1, 5⟩, ⟨.NEWLINE, "\n", 1, 6⟩] initSt
      = .error (.arityMismatch ⟨.NAME, "add", 1, 1⟩ 3 1) ∧
    getUntilNewline [⟨.COMMENT, "; c", 1, 1⟩, ⟨.NEWLINE, "\n", 1, 4⟩]
      = getUntilNewline [⟨.NEWLINE, "\n", 1, 4⟩] := by
  constructor
  · exact claim_C7.1 [("add", 3)] 4 ⟨.NAME, "add", 1, 1⟩
      [⟨.NUMBER, "1", 1, 5⟩, ⟨.NEWLINE, "\n", 1, 6⟩] initSt
      [⟨.NUMBER, "1", 1, 5⟩] [] 3 rfl rfl rfl (by decide)
  · exact claim_C7.2 ⟨.COMMENT, "; c", 1, 1⟩ _ rfl

/-- C2: a LABEL_NAME token whose name is already in the label table makes
the scan continue with an unchanged label table plus one more duplicate
warning, and on any successful continuation the label still resolves to
the index recorded at its first declaration. -/
theorem claim_C2 (cat : List (String × Nat)) (f : Nat) (t : Tok) (ts : List Tok)
    (st : St) (i : Nat)
    (hname : t.name = TokKind.LABEL_NAME)
    (hdup : dictLookup (t.value.dropRight 1) st.labels = some i) :
    asmLoopF cat (f + 1) (t :: ts) st
      = asmLoopF cat f ts
          { st with cstate := .PROCEDURES, warns := st.warns ++ [.duplicateLabel t] } ∧
    ∀ st', asmLoopF cat (f + 1) (t :: ts) st = .ok st' →
      dictLookup (t.value.dropRight 1) st'.labels = some i := by
  have hstep : asmLoopF cat (f + 1) (t :: ts) st
      = asmLoopF cat f ts
          { st with cstate := .PROCEDURES, warns := st.warns ++ [.duplicateLabel t] } := by
    simp only [asmLoopF, hname]
    rw [if_pos (by simp [hdup])]
  refine ⟨hstep, ?_⟩
  intro st' hrun
  rw [hstep] at hrun
  exact asmLoopF_labels_mono cat f ts _ st' _ i hrun (by simpa using hdup)

theorem claim_C2_witness :
    asmLoopF [] 2 [⟨.LABEL_NAME, "foo:", 2, 1⟩]
        ⟨.PROCEDURES, initMeta, [("foo", 0)], [], 0, []⟩
      = asmLoopF [] 1 []
          ⟨.PROCEDURES, initMeta, [("foo", 0)], [], 0,
            [.duplicateLabel ⟨.LABEL_NAME, "foo:", 2, 1⟩]⟩ ∧
    dictLookup ("foo")
        (⟨.PROCEDURES, initMeta, [("foo", 0)], [], 0,
          [.duplicateLabel ⟨.LABEL_NAME, "foo:", 2, 1⟩]⟩ : St).labels = some 0 := by
  have h := claim_C2 [] 1 ⟨.LABEL_NAME, "foo:", 2, 1⟩ []
    ⟨.PROCEDURES, initMeta, [("foo", 0)], [], 0, []⟩ 0 rfl rfl
  exact ⟨h.1, h.2 _ rfl⟩

/-- C3: a label first declared (not yet in the table) when the scan state
carries `k` collected raw instructions ends up mapped to exactly `k` in
any successful run, the running index always equalling the raw
instruction count; and each recognized instruction line with matching
arity appends exactly one raw record and bumps the index by one, so `k`
counts the instruction-producing lines processed strictly before the
declaration. -/
theorem claim_C3 :
    (∀ (cat : List (String × Nat)) (f : Nat) (t : Tok) (ts : List Tok) (st st' : St),
       t.name = TokKind.LABEL_NAME →
       dictLookup (t.value.dropRight 1) st.labels = none →
       st.idx = st.rawInstrs.length →
       asmLoopF cat f (t :: ts) st = .ok st' →
       dictLookup (t.value.dropRight 1) st'.labels = some st.rawInstrs.length) ∧
    (∀ (cat : List (String × Nat)) (f : Nat) (t : Tok) (ts : List Tok) (st : St)
       (args rest : List Tok) (n : Nat),
       t.name = TokKind.NAME →
       dictLookup t.value cat = some n →
       getUntilNewline ts = some (args, rest) →
       args.length = n →
       asmLoopF cat (f + 1) (t :: ts) st
         = asmLoopF cat f rest
             { st with rawInstrs := st.rawInstrs ++ [(t, args)], idx := st.idx + 1 }) := by
  constructor
  · intro cat f t ts st st' hname hfresh hinv hrun
    match f with
    | 0 => simp [asmLoopF] at hrun
    | f + 1 =>
      simp only [asmLoopF, hname] at hrun
      rw [if_neg (by simp [hfresh])] at hrun
      have hk : dictLookup (t.value.dropRight 1)
          ({ st with cstate := .PROCEDURES,
                     labels := st.labels ++ [(t.value.dropRight 1, st.idx)] } : St).labels
          = some st.idx := by
        simpa using dictLookup_append_self hfresh
      have hmono := asmLoopF_labels_mono cat f ts _ st' _ _ hrun hk
      rwa [hinv] at hmono
  · intro cat f t ts st args rest n hname hcat hargs hlen
    simp only [asmLoopF, hname, hcat, hargs]
    rw [if_neg (by simp [hlen])]

theorem claim_C3_witness :
    dictLookup ("foo")
        ((⟨.PROCEDURES, initMeta, [("foo", 0)], [], 0, []⟩ : St)).labels = some 0 ∧
    asmLoopF [("halt", 0)] 2 [⟨.NAME, "halt", 1, 1⟩, ⟨.NEWLINE, "\n", 1, 5⟩] initSt
      = asmLoopF [("halt", 0)] 1 []
          { initSt with rawInstrs := [(⟨.NAME, "halt", 1, 1⟩, [])], idx := 0 + 1 } := by
  constructor
  · exact claim_C3.1 [] 2 ⟨.LABEL_NAME, "foo:", 1, 1⟩ [] initSt _ rfl rfl rfl rfl
  · exact claim_C3.2 [("halt", 0)] 1 ⟨.NAME, "halt", 1, 1⟩ [⟨.NEWLINE, "\n", 1, 5⟩] initSt
      [] [] 0 rfl rfl rfl rfl

/-- C10: in every fully successful assembly every label table value is at
most the number of instructions in the final program (and so are the tick
and start entry points, which are copied from the table), and the upper
bound is attained by a trailing label declared after the last
instruction. -/
theorem claim_C10 :
    (∀ (cat : List (String × Nat)) (asg : List String) (f : Nat) (toks : List Tok)
       (st : St) (prog : Program) (ws : List WarnEvent),
       asmLoopF cat f toks initSt = .ok st →
       phase2 asg st = .ok (prog, ws) →
       (∀ p ∈ st.labels, p.2 ≤ prog.instructions.length) ∧
       (∀ v, prog.tick = some v → v ≤ prog.instructions.length) ∧
       (∀ v, prog.start = some v → v ≤ prog.instructions.length)) ∧
    (∃ st prog ws,
       phase1Source [("add", 3)] ("add $1 2 3\nfoo:") = .ok st ∧
       assembleSource [("add", 3)] [] ("add $1 2 3\nfoo:") = .ok (prog, ws) ∧
       dictLookup ("foo") st.labels = some 1 ∧
       prog.instructions.length = 1) := by
  constructor
  · intro cat asg f toks st prog ws h1 h2
    obtain ⟨hidx, hbound⟩ := asmLoopF_inv cat f toks initSt st h1 rfl
      (by intro p hp; simp [initSt] at hp)
    obtain ⟨ws', hres, -, htick, hstart⟩ := phase2_ok h2
    have hlen : prog.instructions.length = st.rawInstrs.length := resolveAll_length hres
    have hlab : ∀ p ∈ st.labels, p.2 ≤ prog.instructions.length := by
      intro p hp
      rw [hlen, ← hidx]
      exact hbound p hp
    refine ⟨hlab, ?_, ?_⟩
    · intro v hv
      rw [htick] at hv
      exact hlab _ (dictLookup_mem hv)
    · intro v hv
      rw [hstart] at hv
      exact hlab _ (dictLookup_mem hv)
  · exact ⟨_, _, _, rfl, rfl, rfl, rfl⟩

theorem claim_C10_witness :
    ((("foo" : String), (1 : Nat)) : String × Nat).2 ≤ c10res.1.instructions.length := by
  have h := claim_C10.1 [("add", 3)] [] (c10toks.length + 1) c10toks c10st c10res.1 c10res.2
    rfl rfl
  exact h.1 (("foo"), 1) (by decide)

/-- C4: argument resolution happens only after the whole raw instruction
list and label table are built, so two NAME argument tokens carrying the
same label name resolve to the same value no matter where in the program
(before or after the declaration) each use sits. -/
theorem claim_C4 (cat : List (String × Nat)) (asg : List String) (f : Nat) (toks : List Tok)
    (st : St) (prog : Program) (ws : List WarnEvent)
    (_h1 : asmLoopF cat f toks initSt = .ok st)
    (h2 : phase2 asg st = .ok (prog, ws))
    (i j p q : Nat) (ni nj t1 t2 : Tok) (ai aj : List Tok)
    (hi : st.rawInstrs[i]? = some (ni, ai)) (hp : ai[p]? = some t1)
    (hj : st.rawInstrs[j]? = some (nj, aj)) (hq : aj[q]? = some t2)
    (hn1 : t1.name = TokKind.NAME) (hn2 : t2.name = TokKind.NAME)
    (hv : t1.value = t2.value) :
    ∃ (mi mj : String) (argsi argsj : List Arg) (r : Arg),
      prog.instructions[i]? = some (mi, argsi) ∧ argsi[p]? = some r ∧
      prog.instructions[j]? = some (mj, argsj) ∧ argsj[q]? = some r := by
  obtain ⟨ws', hres, -, -, -⟩ := phase2_ok h2
  have hf := resolveAll_forall₂ st.labels asg st.rawInstrs prog.instructions ws' hres
  obtain ⟨⟨mi, argsi⟩, hgi, wi, hri⟩ := forall₂_getElem? hf i (ni, ai) hi
  obtain ⟨⟨mj, argsj⟩, hgj, wj, hrj⟩ := forall₂_getElem? hf j (nj, aj) hj
  obtain ⟨-, hmapi⟩ := resolveInstr_ok hri
  obtain ⟨-, hmapj⟩ := resolveInstr_ok hrj
  have hfi := mapM_ok_forall₂ (fun u => parse_argument_token u st.labels) ai argsi hmapi
  have hfj := mapM_ok_forall₂ (fun u => parse_argument_token u st.labels) aj argsj hmapj
  obtain ⟨r1, hr1, hpr1⟩ := forall₂_getElem? hfi p t1 hp
  obtain ⟨r2, hr2, hpr2⟩ := forall₂_getElem? hfj q t2 hq
  obtain ⟨k1, hd1, he1⟩ : ∃ k, dictLookup t1.value st.labels = some k ∧ r1 = Arg.int k := by
    have h := hpr1
    simp only [parse_argument_token, hn1] at h
    cases hd : dictLookup t1.value st.labels with
    | none => simp only [hd] at h; exact absurd h (by simp)
    | some k =>
      simp only [hd, Except.ok.injEq] at h
      exact ⟨k, rfl, h.symm⟩
  obtain ⟨k2, hd2, he2⟩ : ∃ k, dictLookup t2.value st.labels = some k ∧ r2 = Arg.int k := by
    have h := hpr2
    simp only [parse_argument_token, hn2] at h
    cases hd : dictLookup t2.value st.labels with
    | none => simp only [hd] at h; exact absurd h (by simp)
    | some k =>
      simp only [hd, Except.ok.injEq] at h
      exact ⟨k, rfl, h.symm⟩
  have hk : k1 = k2 := by
    rw [hv] at hd1
    rw [hd1] at hd2
    injection hd2
  exact ⟨mi, mj, argsi, argsj, r1, hgi, hr1, hgj, by rw [he1, hk, ← he2]; exact hr2⟩

theorem claim_C4_witness :
    ∃ (mi mj : String) (argsi argsj : List Arg) (r : Arg),
      c4res.1.instructions[0]? = some (mi, argsi) ∧ argsi[0]? = some r ∧
      c4res.1.instructions[1]? = some (mj, argsj) ∧ argsj[0]? = some r := by
  exact claim_C4 [("add", 3)] [] (c4toks.length + 1) c4toks c4st c4res.1 c4res.2 rfl rfl
    0 1 0 0 _ _ _ _ _ _ rfl rfl rfl rfl rfl rfl rfl

/-! ## Lexer shape lemmas for the LABEL_NAME rule -/

theorem takeWhile_head {p : Char → Bool} {l : List Char} {x : Char} {xs : List Char}
    (h : l.takeWhile p = x :: xs) : l.head? = some x ∧ p x = true := by
  cases l with
  | nil => simp at h
  | cons a l =>
    rw [List.takeWhile_cons] at h
    split at h
    · rename_i hp
      injection h with h1 h2
      subst h1
      exact ⟨rfl, hp⟩
    · simp at h

theorem matchNumber_digit {c : Char} (rest : List Char) (hc : c.isDigit = true) :
    matchNumber (c :: rest)
      = some ((c :: rest).takeWhile Char.isDigit, (c :: rest).dropWhile Char.isDigit) := by
  have hcm : ¬ c = '-' := by
    intro h
    rw [h] at hc
    exact absurd hc (by decide)
  simp only [matchNumber]
  rw [if_neg hcm, if_neg]
  simp [List.takeWhile_cons, hc]

theorem matchLabelName_some {cs tk rest : List Char}
    (h : matchLabelName cs = some (tk, rest)) :
    tk = cs.takeWhile isLabelClass ++ [':'] ∧ cs.takeWhile isLabelClass ≠ [] := by
  unfold matchLabelName at h
  split at h
  · exact absurd h (by simp)
  · rename_i hne
    split at h
    · split at h
      · simp only [Option.some.injEq, Prod.mk.injEq] at h
        refine ⟨h.1.symm, ?_⟩
        intro hnil
        rw [hnil] at hne
        simp at hne
      · exact absurd h (by simp)
    · exact absurd h (by simp)

theorem firstMatch_label {cs tk rest : List Char}
    (h : firstMatch cs = some (.LABEL_NAME, tk, rest)) :
    matchNumber cs = none ∧ matchLabelName cs = some (tk, rest) := by
  unfold firstMatch at h
  cases hm : matchMeta cs with
  | some v =>
    obtain ⟨a, b⟩ := v
    simp only [hm] at h
    simp at h
  | none =>
  simp only [hm] at h
  cases hn : matchNumber cs with
  | some v =>
    obtain ⟨a, b⟩ := v
    simp only [hn] at h
    simp at h
  | none =>
  simp only [hn] at h
  cases ha : matchAddress cs with
  | some v =>
    obtain ⟨a, b⟩ := v
    simp only [ha] at h
    simp at h
  | none =>
  simp only [ha] at h
  cases hl : matchLabelName cs with
  | some v =>
    obtain ⟨a, b⟩ := v
    simp only [hl] at h
    injection h with h
    injection h with h1 h2
    injection h2 with h2a h2b
    exact ⟨rfl, by rw [h2a, h2b]⟩
  | none =>
  simp only [hl] at h
  cases hna : matchName cs with
  | some v =>
    obtain ⟨a, b⟩ := v
    simp only [hna] at h
    simp at h
  | none =>
  simp only [hna] at h
  cases hco : matchComment cs with
  | some v =>
    obtain ⟨a, b⟩ := v
    simp only [hco] at h
    simp at h
  | none =>
  simp only [hco] at h
  cases hnl : matchNewline cs with
  | some v =>
    obtain ⟨a, b⟩ := v
    simp only [hnl] at h
    simp at h
  | none =>
  simp only [hnl] at h
  exact absurd h (by simp)

/-- Every LABEL_NAME token the lexer emits is a nonempty run of `[A-z0-9_]`
characters followed by the colon, and (because the NUMBER rule has higher
priority) the run never starts with a digit. -/
theorem lexLoopF_label_shape :
    ∀ (f : Nat) (cs : List Char) (l c : Nat) (toks : List Tok),
      lexLoopF f cs l c = some toks →
      ∀ t ∈ toks, t.name = TokKind.LABEL_NAME →
        ∃ run : List Char, t.value.data = run ++ [':'] ∧ run ≠ [] ∧
          (∀ ch ∈ run, isLabelClass ch = true) ∧
          ∀ d, run.head? = some d → d.isDigit = false := by
  intro f
  induction f with
  | zero =>
    intro cs l c toks h
    simp [lexLoopF] at h
  | succ f ih =>
    intro cs l c toks h
    match cs with
    | [] =>
      simp only [lexLoopF, Option.some.injEq] at h
      subst h
      intro t ht
      simp at ht
    | ch :: rest =>
      simp only [lexLoopF] at h
      split at h
      · exact ih _ _ _ _ h
      · cases hfm : firstMatch (ch :: rest) with
        | none => simp [hfm] at h
        | some v =>
          obtain ⟨k, tk, rem⟩ := v
          simp only [hfm] at h
          cases hrec : lexLoopF f rem (advancePos (l, c) tk).1 (advancePos (l, c) tk).2 with
          | none => simp [hrec] at h
          | some toks' =>
            simp only [hrec, Option.some.injEq] at h
            subst h
            intro t ht hname
            simp only [List.mem_cons] at ht
            rcases ht with ht | ht
            · subst ht
              replace hname : k = TokKind.LABEL_NAME := hname
              subst hname
              obtain ⟨hnum, hlab⟩ := firstMatch_label hfm
              obtain ⟨htk, hne⟩ := matchLabelName_some hlab
              refine ⟨(ch :: rest).takeWhile isLabelClass, ?_, hne, ?_, ?_⟩
              · show (String.mk tk).data = _
                rw [data_mk]
                exact htk
              · intro ch' hch'
                exact List.mem_takeWhile_imp hch'
              · intro d hd
                obtain ⟨run0, runs, hrun⟩ :
                    ∃ a as, (ch :: rest).takeWhile isLabelClass = a :: as := by
                  cases hq : (ch :: rest).takeWhile isLabelClass with
                  | nil => exact absurd hq hne
                  | cons a as => exact ⟨a, as, rfl⟩
                rw [hrun] at hd
                simp only [List.head?_cons, Option.some.injEq] at hd
                subst hd
                obtain ⟨hhead, -⟩ := takeWhile_head hrun
                simp only [List.head?_cons, Option.some.injEq] at hhead
                subst hhead
                cases hcd : ch.isDigit with
                | false => rfl
                | true =>
                  rw [matchNumber_digit rest hcd] at hnum
                  exact absurd hnum (by simp)
            · exact ih _ _ _ _ hrec t ht hname

theorem takeWhile_append_stop {p : Char → Bool} :
    ∀ (l : List Char) (x : Char) (r : List Char),
      (∀ a ∈ l, p a = true) → p x = false →
      (l ++ x :: r).takeWhile p = l ∧ (l ++ x :: r).dropWhile p = x :: r := by
  intro l
  induction l with
  | nil =>
    intro x r _ hx
    simp [List.takeWhile_cons, List.dropWhile_cons, hx]
  | cons a l ih =>
    intro x r hall hx
    have ha : p a = true := hall a (by simp)
    obtain ⟨h1, h2⟩ := ih x r (fun b hb => hall b (by simp [hb])) hx
    simp [List.takeWhile_cons, List.dropWhile_cons, ha, h1, h2]

/-- Conversely, at any position holding a nonempty run of `[A-z0-9_]`
characters that does not start with a digit and is followed by a colon,
the lexer's rule priority selects exactly the LABEL_NAME rule. -/
theorem firstMatch_label_complete :
    ∀ (run rest : List Char), run ≠ [] →
      (∀ ch ∈ run, isLabelClass ch = true) →
      (∀ d, run.head? = some d → d.isDigit = false) →
      firstMatch (run ++ ':' :: rest) = some (.LABEL_NAME, run ++ [':'], rest) := by
  intro run rest hne hcl hd
  obtain ⟨r0, run', rfl⟩ : ∃ a as, run = a :: as := by
    cases run with
    | nil => exact absurd rfl hne
    | cons a as => exact ⟨a, as, rfl⟩
  have h0class : isLabelClass r0 = true := hcl r0 (by simp)
  have h0digit : r0.isDigit = false := hd r0 (by simp)
  have h0az : 65 ≤ r0.toNat ∧ r0.toNat ≤ 122 := by
    simp only [isLabelClass, Bool.or_eq_true] at h0class
    rcases h0class with hcase | hcase
    · simpa [isAzClass] using hcase
    · exact absurd hcase (by simp [h0digit])
  have hmeta : matchMeta ((r0 :: run') ++ ':' :: rest) = none := by
    simp only [List.cons_append, matchMeta]
    rw [if_neg]
    intro hh
    subst hh
    exact absurd h0az (by decide)
  have hnum : matchNumber ((r0 :: run') ++ ':' :: rest) = none := by
    have hdash : ¬ r0 = '-' := by
      intro hh
      subst hh
      exact absurd h0az (by decide)
    simp only [List.cons_append, matchNumber]
    rw [if_neg hdash, if_pos (by simp [List.takeWhile_cons, h0digit])]
  have haddr : matchAddress ((r0 :: run') ++ ':' :: rest) = none := by
    simp only [List.cons_append, matchAddress]
    rw [if_neg]
    intro hh
    subst hh
    exact absurd h0az (by decide)
  have hlab : matchLabelName ((r0 :: run') ++ ':' :: rest)
      = some ((r0 :: run') ++ [':'], rest) := by
    obtain ⟨ht, hdrop⟩ := takeWhile_append_stop (r0 :: run') ':' rest hcl (by decide)
    unfold matchLabelName
    rw [ht, hdrop]
    simp
  simp only [firstMatch, hmeta, hnum, haddr, hlab]

/-- C8 amended: the lexemes tokenized as LABEL_NAME are exactly a
nonempty run of characters from the regex class `[A-z0-9_]` — letters,
digits, underscore, and the ASCII characters between `Z` and `a` —
immediately followed by a colon; because NUMBER has priority, no emitted
LABEL_NAME token starts with a digit. -/
theorem claim_C8_amended :
    (∀ (f : Nat) (cs : List Char) (l c : Nat) (toks : List Tok),
       lexLoopF f cs l c = some toks →
       ∀ t ∈ toks, t.name = TokKind.LABEL_NAME →
         ∃ run : List Char, t.value.data = run ++ [':'] ∧ run ≠ [] ∧
           (∀ ch ∈ run, isLabelClass ch = true) ∧
           ∀ d, run.head? = some d → d.isDigit = false) ∧
    (∀ (run rest : List Char), run ≠ [] →
       (∀ ch ∈ run, isLabelClass ch = true) →
       (∀ d, run.head? = some d → d.isDigit = false) →
       firstMatch (run ++ ':' :: rest) = some (.LABEL_NAME, run ++ [':'], rest)) :=
  ⟨lexLoopF_label_shape, firstMatch_label_complete⟩

theorem claim_C8_amended_witness :
    (∃ run : List Char,
        (⟨.LABEL_NAME, "foo:", 1, 1⟩ : Tok).value.data = run ++ [':'] ∧ run ≠ [] ∧
        (∀ ch ∈ run, isLabelClass ch = true) ∧
        ∀ d, run.head? = some d → d.isDigit = false) ∧
    firstMatch (['f', 'o', 'o'] ++ ':' :: [])
      = some (.LABEL_NAME, ['f', 'o', 'o'] ++ [':'], []) := by
  constructor
  · exact claim_C8_amended.1 5 ("foo:").data 1 1 [⟨.LABEL_NAME, "foo:", 1, 1⟩] rfl
      ⟨.LABEL_NAME, "foo:", 1, 1⟩ (by simp) rfl
  · exact claim_C8_amended.2 ['f', 'o', 'o'] [] (by simp) (by decide)
      (by intro d hd; simp at hd; subst hd; decide)

end G1
